import Mathlib

/-!
Verification of the meshai context-memory and resilience core.

The definitions below are a shallow embedding of the Python source:
* `src/meshai/memory.py`        — `RollingSummaryMemory` (summary cache)
* `src/meshai/rate_limiter.py`  — `RateLimiter` (sliding-window admission)
* `src/meshai/history.py`       — `ConversationHistory` (SQLite-backed log)
* `src/meshai/backends/fallback.py` — `FallbackBackend` (retry + fallback)

Conventions of the embedding:
* time instants (`time.time()` floats) are modelled as `Int`, passed in
  explicitly as a `now` argument at each call that reads the clock;
* the external LLM transport (an `await client.chat.completions.create`
  call that may raise, or return a possibly-null content) is modelled as
  an oracle function `String → Except String (Option String)`;
* Python dicts keyed by user id are modelled as functions
  `String → Option _` (or total functions with a default, for
  `defaultdict`);
* numeric rendering inside reason strings abstracts Python's float
  formatting (`{x:.1f}`) to `toString` of the modelled `Int` value.
-/

namespace Meshai

/-! ## Python list slicing

`memory.py` splits the history with `full_history[:split_point]` and
`full_history[split_point:]` where `split_point = -(window_size * 2)`.
For `window_size = 0` the split point is `0` (there is no negative zero),
so the slices are `[:0] = []` and `[0:] =` the whole list.  The two
functions below reproduce Python slice semantics for an `Int` index. -/

def pySliceTo {α : Type} (l : List α) (s : Int) : List α :=
  if s < 0 then l.take (l.length - s.natAbs) else l.take s.toNat

def pySliceFrom {α : Type} (l : List α) (s : Int) : List α :=
  if s < 0 then l.drop (l.length - s.natAbs) else l.drop s.toNat

/-! ## RollingSummaryMemory (src/meshai/memory.py) -/

/-- One entry of a `full_history` list: a `{"role": ..., "content": ...}`
dict as produced by `ConversationHistory.get_history_for_llm`. -/
structure ChatMsg where
  role : String
  content : String
deriving DecidableEq

/-- `ConversationSummary` dataclass (memory.py lines 13-19). -/
structure ConversationSummary where
  summary : String
  last_updated : Int
  message_count : Nat
deriving DecidableEq

/-- The mutable state of `RollingSummaryMemory`: the in-memory dict
`self._summaries : dict[str, ConversationSummary]`. -/
structure MemoryState where
  summaries : String → Option ConversationSummary

/-- The empty cache (`self._summaries = {}` in `__init__`). -/
def MemoryState.empty : MemoryState := ⟨fun _ => none⟩

/-- The oracle for the external summarization transport: input is the
prompt, output is either an exception (`Except.error`) or the returned
`response.choices[0].message.content` (`none` models Python `None`). -/
def LlmOracle : Type := String → Except String (Option String)

/-- `"\n".join(f"{msg['role'].upper()}: {msg['content']}" for ...)`
(memory.py lines 125-127). -/
def formatConversation (messages : List ChatMsg) : String :=
  String.intercalate "\n"
    (messages.map (fun m => m.role.toUpper ++ ": " ++ m.content))

/-- The summarization prompt built in `_summarize` (memory.py 129-137). -/
def summarizePrompt (messages : List ChatMsg) : String :=
  "Summarize this conversation in 2-3 concise sentences. Focus on:\n- Main topics discussed\n- Important context or user preferences\n- Key information to remember\n\nConversation:\n"
    ++ formatConversation messages ++ "\n\nSummary (2-3 sentences):"

/-- The placeholder produced when the summarization call raises
(memory.py line 153): `f"Previous conversation: {len(messages)} messages about various topics."` -/
def placeholderSummary (n : Nat) : String :=
  "Previous conversation: " ++ toString n ++ " messages about various topics."

/-- `RollingSummaryMemory._summarize` (memory.py lines 119-153).
Empty input returns early without contacting the transport; a raised
exception is absorbed into the placeholder; a falsy content (Python
`None` or `""`) yields the short fallback; otherwise the stripped
content is returned. -/
def summarize (llm : LlmOracle) (messages : List ChatMsg) : String :=
  if messages.isEmpty then "No previous conversation."
  else
    match llm (summarizePrompt messages) with
    | Except.ok (some content) =>
        if content = "" then
          "Previous conversation: " ++ toString messages.length ++ " messages."
        else content.trim
    | Except.ok none =>
        "Previous conversation: " ++ toString messages.length ++ " messages."
    | Except.error _ => placeholderSummary messages.length

/-- How many transport (LLM) calls `_summarize` makes on this input:
none for an empty old segment, one otherwise. -/
def summarizeCalls (messages : List ChatMsg) : Nat :=
  if messages.isEmpty then 0 else 1

/-- `RollingSummaryMemory._get_or_create_summary` (memory.py 92-117).
Returns the summary, the updated cache state, and the number of
transport calls made (for cache-reuse claims). -/
def getOrCreateSummary (llm : LlmOracle) (summarize_threshold : Nat)
    (now : Int) (st : MemoryState) (user_id : String)
    (messages : List ChatMsg) :
    ConversationSummary × MemoryState × Nat :=
  let hit : Option ConversationSummary :=
    match st.summaries user_id with
    | some cached =>
        if ((cached.message_count : Int) - messages.length).natAbs
            < summarize_threshold then some cached else none
    | none => none
  match hit with
  | some cached => (cached, st, 0)
  | none =>
      let summary_text := summarize llm messages
      let s : ConversationSummary :=
        ⟨summary_text, now, messages.length⟩
      (s, ⟨fun u => if u = user_id then some s else st.summaries u⟩,
        summarizeCalls messages)

/-- `RollingSummaryMemory.get_context_messages` (memory.py 63-90).
Returns `((summary_text?, recent_messages), new_state, transport_calls)`. -/
def getContextMessages (llm : LlmOracle)
    (window_size summarize_threshold : Nat) (now : Int)
    (st : MemoryState) (user_id : String)
    (full_history : List ChatMsg) :
    (Option String × List ChatMsg) × MemoryState × Nat :=
  if full_history.length ≤ window_size * 2 then
    ((none, full_history), st, 0)
  else
    let split_point : Int := -(window_size * 2 : Int)
    let old_messages := pySliceTo full_history split_point
    let recent_messages := pySliceFrom full_history split_point
    let r := getOrCreateSummary llm summarize_threshold now st user_id
      old_messages
    ((some r.1.summary, recent_messages), r.2.1, r.2.2)

/-! ### Helper lemmas about the summary cache -/

/-- After `_get_or_create_summary` returns, the cache holds the returned
summary for the user, and that summary's `message_count` is within the
threshold of the current old-segment length (for a positive threshold). -/
theorem getOrCreateSummary_caches (llm : LlmOracle) (th : Nat) (now : Int)
    (st : MemoryState) (user : String) (messages : List ChatMsg)
    (hth : 1 ≤ th) :
    (getOrCreateSummary llm th now st user messages).2.1.summaries user
        = some (getOrCreateSummary llm th now st user messages).1
    ∧ (((getOrCreateSummary llm th now st user messages).1.message_count : Int)
        - messages.length).natAbs < th := by
  unfold getOrCreateSummary
  cases hcase : st.summaries user with
  | none =>
      simp only [hcase]
      constructor
      · simp
      · simp
        omega
  | some cached =>
      simp only [hcase]
      by_cases hclose :
          ((cached.message_count : Int) - messages.length).natAbs < th
      · simp [hclose, hcase]
      · simp [hclose]
        omega

/-- C10 : with `window_size = 0` and a non-empty history for a user with
no cached summary, `get_context_messages` returns the whole history as
the recent window together with the summary text
"No previous conversation.": the split index `-(window_size*2)` is `0`,
so the old segment is empty and nothing is summarized. -/
theorem c10_zero_window_noop (llm : LlmOracle) (th : Nat) (now : Int)
    (st : MemoryState) (user : String) (h : List ChatMsg)
    (hne : h ≠ []) (hcache : st.summaries user = none) :
    (getContextMessages llm 0 th now st user h).1
      = (some "No previous conversation.", h) := by
  have hlen : ¬ h.length ≤ 0 * 2 := by
    simp only [Nat.zero_mul, Nat.le_zero, List.length_eq_zero]
    exact hne
  simp only [getContextMessages, hlen, if_false]
  have hsplit : -((0 : Nat) * 2 : Int) = 0 := by norm_num
  have hold : pySliceTo h (-((0 : Nat) * 2 : Int)) = [] := by
    rw [hsplit]; simp [pySliceTo]
  have hrec : pySliceFrom h (-((0 : Nat) * 2 : Int)) = h := by
    rw [hsplit]; simp [pySliceFrom]
  rw [hold, hrec]
  simp [getOrCreateSummary, hcache, summarize]

/-- Closed instance for `c10_zero_window_noop`. -/
theorem c10_zero_window_noop_check :
    (getContextMessages (fun _ => Except.error "e") 0 8 0 MemoryState.empty
        "u" [⟨"user", "hi"⟩]).1
      = (some "No previous conversation.", [⟨"user", "hi"⟩]) :=
  c10_zero_window_noop (fun _ => Except.error "e") 8 0 MemoryState.empty
    "u" [⟨"user", "hi"⟩] (by decide) rfl

/-- C7 : if the summarization transport raises while summarizing a
non-empty old segment (and no fresh-enough cached summary short-circuits
the call), `get_context_messages` does not propagate the error and
returns the deterministic placeholder
"Previous conversation: N messages about various topics." for that old
segment. -/
theorem c7_summarize_failure_placeholder (llm : LlmOracle)
    (w th : Nat) (now : Int) (st : MemoryState) (user : String)
    (h : List ChatMsg) (err : String)
    (hlen : w * 2 < h.length)
    (hold : pySliceTo h (-(w * 2 : Int)) ≠ [])
    (hfail : llm (summarizePrompt (pySliceTo h (-(w * 2 : Int))))
        = Except.error err)
    (hstale : ∀ c, st.summaries user = some c →
        th ≤ ((c.message_count : Int)
          - (pySliceTo h (-(w * 2 : Int))).length).natAbs) :
    (getContextMessages llm w th now st user h).1.1
      = some ("Previous conversation: "
          ++ toString (pySliceTo h (-(w * 2 : Int))).length
          ++ " messages about various topics.") := by
  have hlen' : ¬ h.length ≤ w * 2 := Nat.not_le.mpr hlen
  simp only [getContextMessages, hlen', if_false]
  unfold getOrCreateSummary
  have hsum : summarize llm (pySliceTo h (-(w * 2 : Int)))
      = placeholderSummary (pySliceTo h (-(w * 2 : Int))).length := by
    unfold summarize
    rw [if_neg (by simpa using hold), hfail]
  cases hcase : st.summaries user with
  | none => simp [hcase, hsum, placeholderSummary]
  | some cached =>
      have hfar := hstale cached hcase
      simp [hcase, Nat.not_lt.mpr hfar, hsum, placeholderSummary]

/-- Closed instance for `c7_summarize_failure_placeholder`. -/
theorem c7_summarize_failure_placeholder_check :
    (getContextMessages (fun _ => Except.error "boom") 1 8 0
        MemoryState.empty "u"
        [⟨"user", "a"⟩, ⟨"assistant", "b"⟩, ⟨"user", "c"⟩]).1.1
      = some "Previous conversation: 1 messages about various topics." := by
  have := c7_summarize_failure_placeholder (fun _ => Except.error "boom")
    1 8 0 MemoryState.empty "u"
    [⟨"user", "a"⟩, ⟨"assistant", "b"⟩, ⟨"user", "c"⟩] "boom"
    (by decide) (by decide) rfl (by intro c hc; cases hc)
  simpa using this

/-- C5 : with `summarize_threshold = 8` and a cached summary covering 20
messages, `_get_or_create_summary` reuses the cached summary (no
transport call, state unchanged) exactly when the old-segment length is
in [13, 27], and regenerates a fresh summary via the summarizer for any
length outside that range. -/
theorem c5_reuse_band (llm : LlmOracle) (now : Int) (st : MemoryState)
    (user : String) (messages : List ChatMsg)
    (cached : ConversationSummary)
    (hc : st.summaries user = some cached)
    (hmc : cached.message_count = 20) :
    ((13 ≤ messages.length ∧ messages.length ≤ 27) →
        getOrCreateSummary llm 8 now st user messages = (cached, st, 0))
    ∧ ((messages.length < 13 ∨ 27 < messages.length) →
        (getOrCreateSummary llm 8 now st user messages).1
            = ⟨summarize llm messages, now, messages.length⟩
        ∧ (getOrCreateSummary llm 8 now st user messages).2.2
            = summarizeCalls messages) := by
  constructor
  · intro hband
    have hclose : ((cached.message_count : Int)
        - messages.length).natAbs < 8 := by
      rw [hmc]; omega
    simp [getOrCreateSummary, hc, hclose]
  · intro hout
    have hfar : ¬ ((cached.message_count : Int)
        - messages.length).natAbs < 8 := by
      rw [hmc]; omega
    simp [getOrCreateSummary, hc, hfar]

/-- Closed instance for `c5_reuse_band`. -/
theorem c5_reuse_band_check :
    (getOrCreateSummary (fun _ => Except.error "e") 8 0
        ⟨fun u => if u = "u" then some ⟨"cached text", 0, 20⟩ else none⟩
        "u" (List.replicate 13 ⟨"user", "x"⟩)
      = (⟨"cached text", 0, 20⟩,
          ⟨fun u => if u = "u" then some ⟨"cached text", 0, 20⟩ else none⟩,
          0)) := by
  have := c5_reuse_band (fun _ => Except.error "e") 0
    ⟨fun u => if u = "u" then some ⟨"cached text", 0, 20⟩ else none⟩
    "u" (List.replicate 13 ⟨"user", "x"⟩) ⟨"cached text", 0, 20⟩
    (by simp) rfl
  exact this.1 (by simp)

/-- C1 counterexample : with `window_size = 0` a one-element history is
longer than `window_size * 2 = 0`, yet the recent window returned by
`get_context_messages` is the whole history (Python `l[-0:] = l`), so
`len(recent) = 1 ≠ window_size * 2`. -/
theorem c1_counterexample :
    ([(⟨"user", "hi"⟩ : ChatMsg)].length > 0 * 2)
    ∧ ((getContextMessages (fun _ => Except.error "e") 0 8 0
          MemoryState.empty "u" [⟨"user", "hi"⟩]).1.2).length ≠ 0 * 2 := by
  constructor
  · decide
  · decide

/-- C1 (amended to `window_size ≥ 1`) : for every history longer than
`window_size * 2`, the recent window returned by `get_context_messages`
is the Python slice `full_history[-(window_size*2):]`, it has length
exactly `window_size * 2`, and the old slice concatenated with it
reassembles the full history with no message lost or duplicated. -/
theorem c1_split_no_loss (llm : LlmOracle) (w th : Nat) (now : Int)
    (st : MemoryState) (user : String) (h : List ChatMsg)
    (hw : 1 ≤ w) (hlen : w * 2 < h.length) :
    (getContextMessages llm w th now st user h).1.2
        = h.drop (h.length - w * 2)
    ∧ ((getContextMessages llm w th now st user h).1.2).length = w * 2
    ∧ pySliceTo h (-(w * 2 : Int))
          ++ (getContextMessages llm w th now st user h).1.2 = h
    ∧ pySliceTo h (-(w * 2 : Int)) = h.take (h.length - w * 2)
    ∧ (∃ s, (getContextMessages llm w th now st user h).1.1 = some s) := by
  have hlen' : ¬ h.length ≤ w * 2 := Nat.not_le.mpr hlen
  have hneg : (-(w * 2 : Int)) < 0 := by omega
  have habs : (-(w * 2 : Int)).natAbs = w * 2 := by omega
  have hto : pySliceTo h (-(w * 2 : Int)) = h.take (h.length - w * 2) := by
    rw [pySliceTo, if_pos hneg, habs]
  have hfrom : pySliceFrom h (-(w * 2 : Int))
      = h.drop (h.length - w * 2) := by
    rw [pySliceFrom, if_pos hneg, habs]
  simp only [getContextMessages, hlen', if_false, hto, hfrom]
  refine ⟨trivial, ?_, ?_, trivial, ⟨_, rfl⟩⟩
  · rw [List.length_drop]
    omega
  · exact List.take_append_drop _ h

/-- Closed instance for `c1_split_no_loss`. -/
theorem c1_split_no_loss_check :
    (getContextMessages (fun _ => Except.error "e") 1 8 0
        MemoryState.empty "u"
        [⟨"user", "a"⟩, ⟨"assistant", "b"⟩, ⟨"user", "c"⟩]).1.2
      = [⟨"assistant", "b"⟩, ⟨"user", "c"⟩] := by
  have := c1_split_no_loss (fun _ => Except.error "e") 1 8 0
    MemoryState.empty "u"
    [⟨"user", "a"⟩, ⟨"assistant", "b"⟩, ⟨"user", "c"⟩]
    (by decide) (by decide)
  simpa using this.1

/-- C8 : calling `get_context_messages` twice in immediate succession
with the same unchanged history (threading the cache state, with any
positive `summarize_threshold`) returns the identical
`(summary, recent)` pair the second time by cache reuse, performs no
transport call, and leaves the cache unchanged — even if the transport
oracle or the clock differs between the two calls. -/
theorem c8_idempotent (llm1 llm2 : LlmOracle) (w th : Nat)
    (now1 now2 : Int) (st : MemoryState) (user : String)
    (h : List ChatMsg) (hth : 1 ≤ th) :
    (getContextMessages llm2 w th now2
        (getContextMessages llm1 w th now1 st user h).2.1 user h).1
      = (getContextMessages llm1 w th now1 st user h).1
    ∧ (getContextMessages llm2 w th now2
        (getContextMessages llm1 w th now1 st user h).2.1 user h).2.1
      = (getContextMessages llm1 w th now1 st user h).2.1
    ∧ (getContextMessages llm2 w th now2
        (getContextMessages llm1 w th now1 st user h).2.1 user h).2.2
      = 0 := by
  by_cases hshort : h.length ≤ w * 2
  · simp [getContextMessages, hshort]
  · obtain ⟨hself, hclose⟩ := getOrCreateSummary_caches llm1 th now1 st
      user (pySliceTo h (-(w * 2 : Int))) hth
    simp only [getContextMessages, hshort, if_false]
    set r := getOrCreateSummary llm1 th now1 st user
      (pySliceTo h (-(w * 2 : Int))) with hr
    simp [getOrCreateSummary, hself, hclose]

/-- Closed instance for `c8_idempotent`. -/
theorem c8_idempotent_check :
    (getContextMessages (fun _ => Except.error "e2") 1 8 7
        (getContextMessages (fun _ => Except.ok (some "sum")) 1 8 3
          MemoryState.empty "u"
          [⟨"user", "a"⟩, ⟨"assistant", "b"⟩, ⟨"user", "c"⟩]).2.1 "u"
        [⟨"user", "a"⟩, ⟨"assistant", "b"⟩, ⟨"user", "c"⟩]).1
      = (getContextMessages (fun _ => Except.ok (some "sum")) 1 8 3
          MemoryState.empty "u"
          [⟨"user", "a"⟩, ⟨"assistant", "b"⟩, ⟨"user", "c"⟩]).1 :=
  (c8_idempotent (fun _ => Except.ok (some "sum"))
    (fun _ => Except.error "e2") 1 8 3 7 MemoryState.empty "u"
    [⟨"user", "a"⟩, ⟨"assistant", "b"⟩, ⟨"user", "c"⟩] (by decide)).1

/-! ## RateLimiter (src/meshai/rate_limiter.py) -/

/-- `RateLimitsConfig` fields used by the limiter (config.py 22-28).
`cooldown_seconds` is a float in the source; modelled as `Int`. -/
structure RateLimitsConfig where
  messages_per_minute : Nat
  global_messages_per_minute : Nat
  cooldown_seconds : Int
  burst_allowance : Nat

/-- `UserRateState` dataclass (rate_limiter.py 11-17). -/
structure UserRateState where
  message_times : List Int
  last_response_time : Int
  burst_count : Nat
deriving DecidableEq

/-- The fresh state a `defaultdict(UserRateState)` creates on first
access. -/
def UserRateState.default : UserRateState := ⟨[], 0, 0⟩

/-- The mutable state of a `RateLimiter`: the per-user defaultdict and
the process-wide `_global_times` list. -/
structure RateLimiterState where
  user_states : String → UserRateState
  global_times : List Int

/-- State of a freshly constructed `RateLimiter`. -/
def RateLimiterState.empty : RateLimiterState :=
  ⟨fun _ => UserRateState.default, []⟩

/-- Write back one user's state (a dict entry assignment). -/
def RateLimiterState.setUser (st : RateLimiterState) (user : String)
    (s : UserRateState) : RateLimiterState :=
  ⟨fun v => if v = user then s else st.user_states v, st.global_times⟩

/-- `RateLimiter.is_allowed` (rate_limiter.py 29-70).  Returns the
`(allowed, reason)` pair and the updated limiter state.  The eviction of
timestamps older than 60 s mutates both lists before any check; the
burst branch mutates `burst_count`.  The cooldown reason abstracts the
Python float format `{remaining:.1f}` to `toString` of the `Int`
remainder. -/
def is_allowed (cfg : RateLimitsConfig) (vip : List String) (now : Int)
    (st : RateLimiterState) (user : String) :
    (Bool × Option String) × RateLimiterState :=
  if user ∈ vip then ((true, none), st)
  else
    let s0 := st.user_states user
    let cutoff := now - 60
    let times := s0.message_times.filter (fun t => decide (cutoff < t))
    let gtimes := st.global_times.filter (fun t => decide (cutoff < t))
    let finish : Nat → (Bool × Option String) × RateLimiterState :=
      fun burst =>
        let st' : RateLimiterState :=
          ⟨fun v => if v = user then
              ⟨times, s0.last_response_time, burst⟩
            else st.user_states v, gtimes⟩
        if cfg.global_messages_per_minute ≤ gtimes.length then
          ((false, some "Rate limit exceeded (global)"), st')
        else ((true, none), st')
    if 0 < s0.last_response_time
        ∧ now - s0.last_response_time < cfg.cooldown_seconds then
      ((false, some ("Cooldown: wait "
          ++ toString (cfg.cooldown_seconds - (now - s0.last_response_time))
          ++ "s")),
        ⟨fun v => if v = user then
            ⟨times, s0.last_response_time, s0.burst_count⟩
          else st.user_states v, gtimes⟩)
    else if cfg.messages_per_minute ≤ times.length then
      if cfg.burst_allowance ≤ s0.burst_count then
        ((false, some "Rate limit exceeded (per-user)"),
          ⟨fun v => if v = user then
              ⟨times, s0.last_response_time, s0.burst_count⟩
            else st.user_states v, gtimes⟩)
      else finish (s0.burst_count + 1)
    else finish 0

/-- `RateLimiter.record_message` (rate_limiter.py 72-78). -/
def record_message (now : Int) (st : RateLimiterState) (user : String) :
    RateLimiterState :=
  let s0 := st.user_states user
  ⟨fun v => if v = user then
      ⟨s0.message_times ++ [now], now, s0.burst_count⟩
    else st.user_states v, st.global_times ++ [now]⟩

/-- Run a sequence of inbound messages at the given instants for one
user: each is checked with `is_allowed` and, when admitted, committed
with `record_message` (the §2 control flow).  Returns the per-message
`(allowed, reason)` results. -/
def processMessages (cfg : RateLimitsConfig) (vip : List String)
    (user : String) :
    List Int → RateLimiterState →
      List (Bool × Option String) × RateLimiterState
  | [], st => ([], st)
  | t :: ts, st =>
      let r := is_allowed cfg vip t st user
      let st2 := if r.1.1 then record_message t r.2 user else r.2
      let rest := processMessages cfg vip user ts st2
      (r.1 :: rest.1, rest.2)

/-- Filtering a list twice with the same predicate is the same as
filtering once (lazy eviction is idempotent at a fixed instant). -/
theorem filter_twice {α : Type} (p : α → Bool) (l : List α) :
    (l.filter p).filter p = l.filter p := by
  induction l with
  | nil => rfl
  | cons a l ih =>
      by_cases h : p a <;> simp [List.filter_cons, h, ih]

/-- C6 : with `messages_per_minute = 10`, `burst_allowance = 3`, a
cooldown that never triggers and a high global limit, fourteen messages
from one user inside a single 60-second window (with `record_message`
after each admitted one) are admitted up to the 13th — the 11th through
13th consuming the burst allowance, whose counter ends at 3 — and the
14th is denied with the non-empty per-user reason text. -/
theorem c6_burst_scenario :
    (processMessages ⟨10, 100, 0, 3⟩ [] "u"
        [1, 2, 3, 4, 5, 6, 7, 8, 9, 10, 11, 12, 13, 14]
        RateLimiterState.empty).1
      = List.replicate 13 (true, none)
          ++ [(false, some "Rate limit exceeded (per-user)")]
    ∧ ((processMessages ⟨10, 100, 0, 3⟩ [] "u"
        [1, 2, 3, 4, 5, 6, 7, 8, 9, 10, 11, 12, 13, 14]
        RateLimiterState.empty).2.user_states "u").burst_count = 3
    ∧ "Rate limit exceeded (per-user)" ≠ "" := by
  refine ⟨by decide, by decide, by decide⟩

/-- C2 counterexample : `is_allowed` mutates `burst_count` on the burst
path, so with `messages_per_minute = 1`, `burst_allowance = 1`, no
cooldown and one recorded message in the window, two immediately
successive `is_allowed` calls for the same non-bypass user (no
`record_message` between them) return different results: the first is
allowed (consuming the burst), the second is denied. -/
theorem c2_counterexample :
    (is_allowed ⟨1, 100, 0, 1⟩ [] 10
        (record_message 5 RateLimiterState.empty "u") "u").1
      = (true, none)
    ∧ (is_allowed ⟨1, 100, 0, 1⟩ [] 10
        (is_allowed ⟨1, 100, 0, 1⟩ [] 10
          (record_message 5 RateLimiterState.empty "u") "u").2 "u").1
      = (false, some "Rate limit exceeded (per-user)") := by
  refine ⟨by decide, by decide⟩

/-- C2 (amended) : admission checking never records — `is_allowed` for
a non-bypass user only evicts stale timestamps from the per-user and
global lists (appending nothing) and leaves `last_response_time`
unchanged — and two immediately successive `is_allowed` calls return
the same `(allowed, reason)` result whenever the user's post-eviction
in-window count is below `messages_per_minute` (i.e. whenever the first
call does not take the burst path, which increments `burst_count`). -/
theorem c2_check_without_commit (cfg : RateLimitsConfig)
    (vip : List String) (now : Int) (st : RateLimiterState)
    (user : String) (hvip : user ∉ vip) :
    ((is_allowed cfg vip now st user).2.user_states user).message_times
        = (st.user_states user).message_times.filter
            (fun t => decide (now - 60 < t))
    ∧ ((is_allowed cfg vip now st user).2.user_states
          user).last_response_time
        = (st.user_states user).last_response_time
    ∧ (is_allowed cfg vip now st user).2.global_times
        = st.global_times.filter (fun t => decide (now - 60 < t))
    ∧ (((st.user_states user).message_times.filter
            (fun t => decide (now - 60 < t))).length
          < cfg.messages_per_minute →
        (is_allowed cfg vip now (is_allowed cfg vip now st user).2
            user).1
          = (is_allowed cfg vip now st user).1) := by
  have hfilt := filter_twice (fun t : Int => decide (now - 60 < t))
    (st.user_states user).message_times
  have hgfilt := filter_twice (fun t : Int => decide (now - 60 < t))
    st.global_times
  by_cases h1 : 0 < (st.user_states user).last_response_time
      ∧ now - (st.user_states user).last_response_time
          < cfg.cooldown_seconds
  all_goals by_cases h2 : cfg.messages_per_minute
      ≤ ((st.user_states user).message_times.filter
          (fun t => decide (now - 60 < t))).length
  all_goals by_cases h3 : cfg.burst_allowance
      ≤ (st.user_states user).burst_count
  all_goals by_cases h4 : cfg.global_messages_per_minute
      ≤ (st.global_times.filter (fun t => decide (now - 60 < t))).length
  all_goals refine ⟨?_, ?_, ?_, ?_⟩
  all_goals simp [is_allowed, hvip, h1, h2, h3, h4, hfilt, hgfilt]

/-- Closed instance for `c2_check_without_commit`. -/
theorem c2_check_without_commit_check :
    ((is_allowed ⟨10, 100, 0, 3⟩ [] 10
          (record_message 5 RateLimiterState.empty "u") "u").2.user_states
        "u").message_times = [5]
    ∧ (is_allowed ⟨10, 100, 0, 3⟩ []
          10 (is_allowed ⟨10, 100, 0, 3⟩ [] 10
            (record_message 5 RateLimiterState.empty "u") "u").2 "u").1
        = (is_allowed ⟨10, 100, 0, 3⟩ [] 10
            (record_message 5 RateLimiterState.empty "u") "u").1 := by
  have := c2_check_without_commit ⟨10, 100, 0, 3⟩ [] 10
    (record_message 5 RateLimiterState.empty "u") "u" (by decide)
  exact ⟨by rw [this.1]; decide, this.2.2.2 (by decide)⟩

/-! ## FallbackBackend (src/meshai/backends/fallback.py)

`FallbackBackend.generate` wraps each backend call in
`asyncio.wait_for(..., timeout)`.  From the wrapper's point of view one
attempt either returns text, raises `asyncio.TimeoutError`, or raises
some other exception; a backend is therefore modelled as an oracle from
the attempt index and the timeout value passed to `wait_for` to such an
outcome. -/

/-- Outcome of one awaited backend call. -/
inductive CallResult where
  | ok (text : String)
  | timeout
  | error (e : String)
deriving DecidableEq

/-- The exceptions `generate` can raise to its caller:
`asyncio.TimeoutError`, a provider exception, or the final
`RuntimeError("All LLM backends failed")`. -/
inductive GenError where
  | timeout
  | error (e : String)
  | allBackendsFailed
deriving DecidableEq

/-- The configuration fields of `LLMConfig` that `generate` reads:
`retry_attempts`, the primary `timeout`, the two escalation flags, and
the optional fallback's `timeout` (present exactly when a fallback
backend is configured, as built in `__init__`). -/
structure GenConfig where
  retry_attempts : Nat
  timeout : Int
  fallback_on_timeout : Bool
  fallback_on_error : Bool
  fallback_timeout : Option Int
deriving DecidableEq

/-- Result of the primary retry loop (fallback.py 134-151): an early
successful return, an immediately re-raised non-escalating failure, or
exhaustion carrying `last_error`. -/
inductive PrimaryLoopResult where
  | success (text : String)
  | raised (e : GenError)
  | exhausted (lastError : Option GenError)
deriving DecidableEq

/-- The `for attempt in range(retry_attempts)` loop over the primary
backend.  `remaining` counts attempts left, `attempt` is the index,
`lastError` is the Python `last_error` local. -/
def primaryLoop (cfg : GenConfig) (primary : Nat → Int → CallResult) :
    Nat → Nat → Option GenError → PrimaryLoopResult
  | 0, _, lastError => .exhausted lastError
  | remaining + 1, attempt, _ =>
      match primary attempt cfg.timeout with
      | .ok t => .success t
      | .timeout =>
          if !cfg.fallback_on_timeout then .raised .timeout
          else primaryLoop cfg primary remaining (attempt + 1)
            (some .timeout)
      | .error e =>
          if !cfg.fallback_on_error then .raised (.error e)
          else primaryLoop cfg primary remaining (attempt + 1)
            (some (.error e))

/-- `FallbackBackend.generate` (fallback.py 123-170).

Inputs: the config, the primary oracle, the optional fallback oracle
(present exactly when `config.fallback` is — `__init__` builds both
together), and the current `_using_fallback` flag.

Output: `(result, using_fallback', fallback_timeouts)` where
`fallback_timeouts` lists the timeout value passed to `wait_for` for
each fallback invocation (so "invoked exactly once with its own
timeout" is the statement `fallback_timeouts = [fb_timeout]`).
`_using_fallback` is written only by a completed successful call. -/
def generate (cfg : GenConfig) (primary : Nat → Int → CallResult)
    (fallback : Option (Int → CallResult)) (using_fallback : Bool) :
    Except GenError String × Bool × List Int :=
  match primaryLoop cfg primary cfg.retry_attempts 0 none with
  | .success t => (.ok t, false, [])
  | .raised e => (.error e, using_fallback, [])
  | .exhausted lastError =>
      match fallback with
      | some fb =>
          let tfb := cfg.fallback_timeout.getD 30
          match fb tfb with
          | .ok t => (.ok t, true, [tfb])
          | .timeout => (.error .timeout, using_fallback, [tfb])
          | .error e => (.error (.error e), using_fallback, [tfb])
      | none =>
          match lastError with
          | some e => (.error e, using_fallback, [])
          | none => (.error .allBackendsFailed, using_fallback, [])

/-- C3 : with `retry_attempts = 2` and a primary that times out on both
attempts (timeouts escalating to the fallback), a configured fallback
that succeeds is invoked exactly once with its own timeout, the call
returns the fallback's text, and `using_fallback` becomes true; a
subsequent `generate` succeeding on the primary's first attempt resets
`using_fallback` to false without touching the fallback. -/
theorem c3_fallback_once (cfg : GenConfig)
    (primary1 primary2 : Nat → Int → CallResult)
    (fb : Int → CallResult) (tfb : Int) (s1 s2 : String)
    (uf0 : Bool)
    (hretry : cfg.retry_attempts = 2)
    (hesc : cfg.fallback_on_timeout = true)
    (htf : cfg.fallback_timeout = some tfb)
    (hp1 : primary1 0 cfg.timeout = .timeout)
    (hp2 : primary1 1 cfg.timeout = .timeout)
    (hfb : fb tfb = .ok s1)
    (hp3 : primary2 0 cfg.timeout = .ok s2) :
    generate cfg primary1 (some fb) uf0 = (.ok s1, true, [tfb])
    ∧ generate cfg primary2 (some fb)
        (generate cfg primary1 (some fb) uf0).2.1
      = (.ok s2, false, []) := by
  have hloop1 : primaryLoop cfg primary1 cfg.retry_attempts 0 none
      = .exhausted (some .timeout) := by
    rw [hretry]
    simp [primaryLoop, hp1, hp2, hesc]
  have hfirst : generate cfg primary1 (some fb) uf0
      = (.ok s1, true, [tfb]) := by
    simp [generate, hloop1, htf, hfb]
  refine ⟨hfirst, ?_⟩
  have hloop2 : ∀ uf, generate cfg primary2 (some fb) uf
      = (.ok s2, false, []) := by
    intro uf
    have : primaryLoop cfg primary2 cfg.retry_attempts 0 none
        = .success s2 := by
      rw [hretry]
      simp [primaryLoop, hp3]
    simp [generate, this]
  exact hloop2 _

/-- Closed instance for `c3_fallback_once`. -/
theorem c3_fallback_once_check :
    generate ⟨2, 10, true, true, some 20⟩
        (fun _ _ => CallResult.timeout) (some fun _ => .ok "fb text")
        false
      = (.ok "fb text", true, [20])
    ∧ generate ⟨2, 10, true, true, some 20⟩
        (fun _ _ => CallResult.ok "primary text")
        (some fun _ => .ok "fb text")
        (generate ⟨2, 10, true, true, some 20⟩
          (fun _ _ => CallResult.timeout)
          (some fun _ => .ok "fb text") false).2.1
      = (.ok "primary text", false, []) :=
  c3_fallback_once ⟨2, 10, true, true, some 20⟩
    (fun _ _ => CallResult.timeout) (fun _ _ => CallResult.ok "primary text")
    (fun _ => .ok "fb text") 20 "fb text" "primary text" false
    rfl rfl rfl rfl rfl rfl rfl

/-- Every failing attempt outcome mapped to the exception `generate`
re-raises for it. -/
def CallResult.toGenError : CallResult → GenError
  | .ok _ => .allBackendsFailed
  | .timeout => .timeout
  | .error e => .error e

/-- An attempt outcome that raises rather than returns text. -/
def CallResult.failed : CallResult → Bool
  | .ok _ => false
  | .timeout => true
  | .error _ => true

/-- With both escalation flags true, a retry loop whose every attempt
fails runs to exhaustion with `last_error` set by its final attempt. -/
theorem primaryLoop_all_fail (cfg : GenConfig)
    (primary : Nat → Int → CallResult)
    (ht : cfg.fallback_on_timeout = true)
    (he : cfg.fallback_on_error = true) :
    ∀ (n k : Nat) (le : Option GenError), 1 ≤ n →
      (∀ i, k ≤ i → i < k + n → (primary i cfg.timeout).failed = true) →
      primaryLoop cfg primary n k le
        = .exhausted (some ((primary (k + n - 1) cfg.timeout).toGenError)) := by
  intro n
  induction n with
  | zero => intro k le h; omega
  | succ m ih =>
      intro k le _ hfail
      match m, ih with
      | 0, _ =>
          have hk := hfail k (Nat.le_refl k) (by omega)
          rw [primaryLoop]
          cases hcall : primary k cfg.timeout with
          | ok t => rw [hcall] at hk; simp [CallResult.failed] at hk
          | timeout =>
              simp [ht, primaryLoop, hcall, CallResult.toGenError]
          | error e =>
              simp [he, primaryLoop, hcall, CallResult.toGenError]
      | m' + 1, ih =>
          have hk := hfail k (Nat.le_refl k) (by omega)
          have hrest := ih (k + 1)
          rw [primaryLoop]
          cases hcall : primary k cfg.timeout with
          | ok t => rw [hcall] at hk; simp [CallResult.failed] at hk
          | timeout =>
              rw [ht]
              simp only [Bool.not_true, Bool.false_eq_true, if_false]
              rw [hrest (some .timeout) (by omega)
                (fun i hi1 hi2 => hfail i (by omega) (by omega)),
                show k + 1 + (m' + 1) - 1 = k + (m' + 1 + 1) - 1 by omega]
          | error e =>
              rw [he]
              simp only [Bool.not_true, Bool.false_eq_true, if_false]
              rw [hrest (some (.error e)) (by omega)
                (fun i hi1 hi2 => hfail i (by omega) (by omega)),
                show k + 1 + (m' + 1) - 1 = k + (m' + 1 + 1) - 1 by omega]

/-- C9 : with no fallback configured, retries enabled
(`fallback_on_timeout` and `fallback_on_error` true, the config
defaults), at least one attempt, and every primary attempt failing,
`generate` raises the error of the final primary attempt directly,
leaving `using_fallback` untouched and invoking no fallback. -/
theorem c9_last_error_surfaced (cfg : GenConfig)
    (primary : Nat → Int → CallResult) (uf0 : Bool)
    (hret : 1 ≤ cfg.retry_attempts)
    (ht : cfg.fallback_on_timeout = true)
    (he : cfg.fallback_on_error = true)
    (hfail : ∀ i < cfg.retry_attempts,
      (primary i cfg.timeout).failed = true) :
    generate cfg primary none uf0
      = (.error ((primary (cfg.retry_attempts - 1)
            cfg.timeout).toGenError), uf0, []) := by
  have hloop := primaryLoop_all_fail cfg primary ht he
    cfg.retry_attempts 0 none hret
    (fun i hi1 hi2 => hfail i (by omega))
  simp only [Nat.zero_add] at hloop
  simp [generate, hloop]

/-- Closed instance for `c9_last_error_surfaced`: two attempts, a
timeout then a provider error — the provider error of attempt 2 is
raised. -/
theorem c9_last_error_surfaced_check :
    generate ⟨2, 10, true, true, none⟩
        (fun i _ => if i = 0 then CallResult.timeout
          else CallResult.error "boom") none false
      = (.error (.error "boom"), false, []) := by
  have := c9_last_error_surfaced ⟨2, 10, true, true, none⟩
    (fun i _ => if i = 0 then CallResult.timeout
      else CallResult.error "boom") false
    (by decide) rfl rfl
    (by intro i hi; interval_cases i <;> decide)
  simpa using this

/-! ## ConversationHistory (src/meshai/history.py)

The `conversations` table is modelled as a list of rows kept in
insertion (`id`, i.e. rowid) order, plus the autoincrement counter.
`ORDER BY timestamp ASC` is modelled as a stable sort by
`(timestamp, id)` — SQLite resolves equal timestamps via the
`(user_id, timestamp)` index scan in rowid order; the claims below only
exercise strictly increasing timestamps, where ties never arise. -/

/-- One row of the `conversations` table. -/
structure ConvRow where
  id : Nat
  user_id : String
  role : String
  content : String
  timestamp : Int
deriving DecidableEq

/-- The `conversations` table plus its autoincrement counter. -/
structure HistoryDB where
  rows : List ConvRow
  next_id : Nat
deriving DecidableEq

def HistoryDB.empty : HistoryDB := ⟨[], 0⟩

/-- `ORDER BY timestamp ASC` comparison, ties by rowid. -/
def rowLE (a b : ConvRow) : Bool :=
  if a.timestamp < b.timestamp then true
  else if a.timestamp = b.timestamp then decide (a.id ≤ b.id)
  else false

def insertRow (a : ConvRow) : List ConvRow → List ConvRow
  | [] => [a]
  | b :: l => if rowLE a b then a :: b :: l else b :: insertRow a l

/-- Insertion sort realizing `ORDER BY timestamp ASC`. -/
def sortRows : List ConvRow → List ConvRow
  | [] => []
  | a :: l => insertRow a (sortRows l)

/-- `SELECT ... WHERE user_id = ?` (row subset in rowid order). -/
def userRows (db : HistoryDB) (user_id : String) : List ConvRow :=
  db.rows.filter (fun r => decide (r.user_id = user_id))

/-- `SELECT COUNT(*) FROM conversations WHERE user_id = ?`. -/
def countUser (db : HistoryDB) (user_id : String) : Nat :=
  (userRows db user_id).length

/-- `ConversationHistory._prune_history` (history.py 162-187): if the
user's row count exceeds `max_messages_per_user * 2`, delete the
`excess` rows with smallest `(timestamp, id)` for that user. -/
def pruneHistory (max_messages_per_user : Nat) (user_id : String)
    (db : HistoryDB) : HistoryDB :=
  let count := countUser db user_id
  let max_messages := max_messages_per_user * 2
  if max_messages < count then
    let excess := count - max_messages
    let toDelete :=
      ((sortRows (userRows db user_id)).take excess).map (fun r => r.id)
    ⟨db.rows.filter (fun r => decide (r.id ∉ toDelete)), db.next_id⟩
  else db

/-- `ConversationHistory.add_message` (history.py 73-95): insert the row
with a fresh rowid and the current timestamp, then prune that user. -/
def add_message (max_messages_per_user : Nat)
    (user_id role content : String) (now : Int) (db : HistoryDB) :
    HistoryDB :=
  pruneHistory max_messages_per_user user_id
    ⟨db.rows ++ [⟨db.next_id, user_id, role, content, now⟩],
      db.next_id + 1⟩

theorem insertRow_perm (a : ConvRow) (l : List ConvRow) :
    List.Perm (insertRow a l) (a :: l) := by
  induction l with
  | nil => exact List.Perm.refl _
  | cons b l ih =>
      rw [insertRow]
      by_cases h : rowLE a b
      · rw [if_pos h]
      · rw [if_neg h]
        exact (ih.cons b).trans (List.Perm.swap a b l)

theorem sortRows_perm (l : List ConvRow) :
    List.Perm (sortRows l) l := by
  induction l with
  | nil => exact List.Perm.refl _
  | cons a l ih =>
      exact (insertRow_perm a (sortRows l)).trans (ih.cons a)

/-- Deleting the ids of the first `k` rows of the sorted view removes at
least `k` rows: at most `len - k` survive the filter. -/
theorem length_filter_delete_le (u : List ConvRow) (k : Nat) :
    (u.filter (fun r =>
        decide (r.id ∉ ((sortRows u).take k).map (fun r => r.id)))).length
      ≤ u.length - k := by
  set d := ((sortRows u).take k).map (fun r => r.id) with hd
  set p : ConvRow → Bool := fun r => decide (r.id ∉ d) with hp
  have hperm : List.Perm (u.filter p) ((sortRows u).filter p) :=
    ((sortRows_perm u).filter p).symm
  rw [hperm.length_eq]
  have hsplit : sortRows u = (sortRows u).take k ++ (sortRows u).drop k :=
    (List.take_append_drop k (sortRows u)).symm
  rw [hsplit, List.filter_append]
  have htake : ((sortRows u).take k).filter p = [] := by
    rw [List.filter_eq_nil_iff]
    intro r hr
    simp only [hp, decide_eq_true_eq, Decidable.not_not]
    exact List.mem_map.mpr ⟨r, hr, rfl⟩
  rw [htake, List.nil_append]
  have h1 : (((sortRows u).drop k).filter p).length
      ≤ ((sortRows u).drop k).length := List.length_filter_le _ _
  have h2 : ((sortRows u).drop k).length = (sortRows u).length - k :=
    List.length_drop k _
  have h3 : (sortRows u).length = u.length := (sortRows_perm u).length_eq
  omega

/-- After pruning, the pruned user's row count is at most the limit —
whatever state the table was in. -/
theorem pruneHistory_bound (m : Nat) (user_id : String)
    (db : HistoryDB) :
    countUser (pruneHistory m user_id db) user_id ≤ m * 2 := by
  simp only [pruneHistory]
  by_cases hover : m * 2 < countUser db user_id
  · rw [if_pos hover]
    have hcomm : ∀ q : ConvRow → Bool,
        (db.rows.filter q).filter (fun r => decide (r.user_id = user_id))
          = (db.rows.filter
              (fun r => decide (r.user_id = user_id))).filter q := by
      intro q
      rw [List.filter_filter, List.filter_filter]
      exact List.filter_congr (fun r _ => Bool.and_comm _ _)
    have hkey := length_filter_delete_le
      (db.rows.filter (fun r => decide (r.user_id = user_id)))
      (countUser db user_id - m * 2)
    simp only [countUser, userRows] at hkey hover ⊢
    rw [hcomm]
    omega
  · rw [if_neg hover]
    omega

/-- A loop of `add_message` calls: each list entry is
`(role, content, timestamp)` for one inbound turn. -/
def appendMany (m : Nat) (user_id : String) :
    List (String × String × Int) → HistoryDB → HistoryDB
  | [], db => db
  | x :: xs, db =>
      appendMany m user_id xs (add_message m user_id x.1 x.2.1 x.2.2 db)

/-- The rows the autoincrement insert produces for a run of messages,
ids starting at `i`. -/
def rowsFrom (user_id : String) :
    Nat → List (String × String × Int) → List ConvRow
  | _, [] => []
  | i, x :: xs =>
      ⟨i, user_id, x.1, x.2.1, x.2.2⟩ :: rowsFrom user_id (i + 1) xs

theorem rowsFrom_proj (user_id : String) :
    ∀ (i : Nat) (msgs : List (String × String × Int)),
      (rowsFrom user_id i msgs).map
          (fun r => (r.role, r.content, r.timestamp)) = msgs := by
  intro i msgs
  induction msgs generalizing i with
  | nil => rfl
  | cons x xs ih => simp [rowsFrom, ih]

theorem rowsFrom_length (user_id : String) :
    ∀ (i : Nat) (msgs : List (String × String × Int)),
      (rowsFrom user_id i msgs).length = msgs.length := by
  intro i msgs
  induction msgs generalizing i with
  | nil => rfl
  | cons x xs ih => simp [rowsFrom, ih]

/-- A list already in strictly increasing timestamp order is fixed by
the `ORDER BY` sort. -/
theorem sortRows_eq_self (l : List ConvRow)
    (h : List.Pairwise (fun a b => a.timestamp < b.timestamp) l) :
    sortRows l = l := by
  induction l with
  | nil => rfl
  | cons a l ih =>
      rw [sortRows, ih (List.pairwise_cons.mp h).2]
      cases l with
      | nil => rfl
      | cons b l' =>
          have hab : a.timestamp < b.timestamp :=
            (List.pairwise_cons.mp h).1 b (List.mem_cons_self b l')
          rw [insertRow, if_pos]
          rw [rowLE, if_pos hab]

/-- One `add_message` on a well-formed single-user table acts as a
bounded-queue push: the new row is appended and, over the limit, the
oldest row is dropped from the front. -/
theorem add_message_step (m : Nat) (user_id role content : String)
    (now : Int) (db : HistoryDB)
    (huser : ∀ r ∈ db.rows, r.user_id = user_id)
    (hid : List.Pairwise (fun a b => a.id < b.id) db.rows)
    (hidlt : ∀ r ∈ db.rows, r.id < db.next_id)
    (hts : List.Pairwise (fun a b => a.timestamp < b.timestamp) db.rows)
    (hnow : ∀ r ∈ db.rows, r.timestamp < now)
    (hlen : db.rows.length ≤ m * 2) :
    add_message m user_id role content now db
      = ⟨(db.rows
            ++ [(⟨db.next_id, user_id, role, content, now⟩ : ConvRow)]).drop
          (db.rows.length + 1 - m * 2), db.next_id + 1⟩ := by
  have hall : ∀ r ∈ db.rows
      ++ [(⟨db.next_id, user_id, role, content, now⟩ : ConvRow)],
      r.user_id = user_id := by
    intro r hr
    rcases List.mem_append.mp hr with h | h
    · exact huser r h
    · simp only [List.mem_singleton] at h
      subst h; rfl
  have hfilt : (db.rows
      ++ [(⟨db.next_id, user_id, role, content, now⟩ : ConvRow)]).filter
        (fun r => decide (r.user_id = user_id))
      = db.rows ++ [⟨db.next_id, user_id, role, content, now⟩] :=
    List.filter_eq_self.mpr (fun r hr => by simp [hall r hr])
  simp only [add_message, pruneHistory, countUser, userRows, hfilt]
  rw [List.length_append, List.length_singleton]
  by_cases hover : m * 2 < db.rows.length + 1
  · rw [if_pos hover]
    have hlen2 : db.rows.length = m * 2 := by omega
    have hexcess : db.rows.length + 1 - m * 2 = 1 := by omega
    rw [hexcess]
    have htsall : List.Pairwise (fun a b => a.timestamp < b.timestamp)
        (db.rows
          ++ [(⟨db.next_id, user_id, role, content, now⟩ : ConvRow)]) := by
      rw [List.pairwise_append]
      exact ⟨hts, List.pairwise_singleton _ _,
        fun a ha b hb => by
          simp only [List.mem_singleton] at hb
          subst hb; exact hnow a ha⟩
    have hidall : List.Pairwise (fun a b => a.id < b.id)
        (db.rows
          ++ [(⟨db.next_id, user_id, role, content, now⟩ : ConvRow)]) := by
      rw [List.pairwise_append]
      exact ⟨hid, List.pairwise_singleton _ _,
        fun a ha b hb => by
          simp only [List.mem_singleton] at hb
          subst hb; exact hidlt a ha⟩
    rw [sortRows_eq_self _ htsall]
    cases hrows : db.rows
        ++ [(⟨db.next_id, user_id, role, content, now⟩ : ConvRow)] with
    | nil => simp at hrows
    | cons hd tl =>
        rw [hrows] at hidall
        have hne : ∀ r ∈ tl, ¬ r.id = hd.id := by
          intro r hr
          have := (List.pairwise_cons.mp hidall).1 r hr
          omega
        have : (hd :: tl).filter
            (fun r => decide (r.id ∉ ([hd] : List ConvRow).map
              (fun r => r.id))) = tl := by
          rw [List.filter_cons]
          simp only [List.map_cons, List.map_nil, List.mem_cons,
            List.not_mem_nil, or_false, Decidable.not_not,
            decide_eq_true_eq]
          rw [if_neg (by simp)]
          exact List.filter_eq_self.mpr (fun r hr => by
            simp [hne r hr])
        simp only [List.take_succ_cons, List.take_zero]
        rw [this, List.drop_succ_cons, List.drop_zero]
  · rw [if_neg hover]
    have : db.rows.length + 1 - m * 2 = 0 := by omega
    rw [this, List.drop_zero]

/-- Folding a run of single-user appends with strictly increasing
timestamps over a well-formed table keeps exactly the most recent
`max_messages_per_user * 2` rows: the result is the suffix of the full
insertion sequence. -/
theorem appendMany_rows (m : Nat) (user_id : String) :
    ∀ (msgs : List (String × String × Int)) (db : HistoryDB),
      (∀ r ∈ db.rows, r.user_id = user_id) →
      List.Pairwise (fun a b => a.id < b.id) db.rows →
      (∀ r ∈ db.rows, r.id < db.next_id) →
      List.Pairwise (fun a b : Int => a < b)
        (db.rows.map (fun r => r.timestamp)
          ++ msgs.map (fun x => x.2.2)) →
      db.rows.length ≤ m * 2 →
      (appendMany m user_id msgs db).rows
        = (db.rows ++ rowsFrom user_id db.next_id msgs).drop
            (db.rows.length + msgs.length - m * 2) := by
  intro msgs
  induction msgs with
  | nil =>
      intro db _ _ _ _ hlen
      rw [appendMany, rowsFrom, List.append_nil]
      rw [show db.rows.length + [].length - m * 2 = 0 by simp; omega]
      rw [List.drop_zero]
  | cons x xs ih =>
      intro db huser hid hidlt hts hlen
      have htsparts := List.pairwise_append.mp
        (by simpa using hts :
          List.Pairwise (fun a b : Int => a < b)
            (db.rows.map (fun r => r.timestamp)
              ++ x.2.2 :: xs.map (fun y => y.2.2)))
      have hnow : ∀ r ∈ db.rows, r.timestamp < x.2.2 := by
        intro r hr
        exact htsparts.2.2 r.timestamp
          (List.mem_map.mpr ⟨r, hr, rfl⟩) x.2.2 (List.mem_cons_self _ _)
      have htsrows : List.Pairwise
          (fun a b : ConvRow => a.timestamp < b.timestamp) db.rows :=
        List.pairwise_map.mp htsparts.1
      have hstep := add_message_step m user_id x.1 x.2.1 x.2.2 db
        huser hid hidlt htsrows hnow hlen
      rw [appendMany, hstep]
      set newRow : ConvRow :=
        ⟨db.next_id, user_id, x.1, x.2.1, x.2.2⟩ with hnew
      set j := db.rows.length + 1 - m * 2 with hj
      have hjle : j ≤ (db.rows ++ [newRow]).length := by
        rw [List.length_append, List.length_singleton]; omega
      have hrows1 : ∀ r ∈ (db.rows ++ [newRow]).drop j,
          r ∈ db.rows ++ [newRow] :=
        fun r hr => List.mem_of_mem_drop hr
    -- well-formedness of the post-step table, for the induction step
      have huser1 : ∀ r ∈ (db.rows ++ [newRow]).drop j,
          r.user_id = user_id := by
        intro r hr
        rcases List.mem_append.mp (hrows1 r hr) with h | h
        · exact huser r h
        · simp only [List.mem_singleton] at h; subst h; rfl
      have hidall : List.Pairwise (fun a b => a.id < b.id)
          (db.rows ++ [newRow]) := by
        rw [List.pairwise_append]
        exact ⟨hid, List.pairwise_singleton _ _,
          fun a ha b hb => by
            simp only [List.mem_singleton] at hb
            subst hb; exact hidlt a ha⟩
      have hid1 : List.Pairwise (fun a b => a.id < b.id)
          ((db.rows ++ [newRow]).drop j) :=
        hidall.sublist (List.drop_sublist j _)
      have hidlt1 : ∀ r ∈ (db.rows ++ [newRow]).drop j,
          r.id < db.next_id + 1 := by
        intro r hr
        rcases List.mem_append.mp (hrows1 r hr) with h | h
        · exact Nat.lt_succ_of_lt (hidlt r h)
        · simp only [List.mem_singleton] at h; subst h
          exact Nat.lt_succ_self _
      have hts1 : List.Pairwise (fun a b : Int => a < b)
          (((db.rows ++ [newRow]).drop j).map (fun r => r.timestamp)
            ++ xs.map (fun y => y.2.2)) := by
        have hsub : List.Sublist
            (((db.rows ++ [newRow]).drop j).map
              (fun r => r.timestamp) ++ xs.map (fun y => y.2.2))
            ((db.rows ++ [newRow]).map (fun r => r.timestamp)
              ++ xs.map (fun y => y.2.2)) :=
          ((List.drop_sublist j _).map _).append_right _
        refine List.Pairwise.sublist hsub ?_
        have : (db.rows ++ [newRow]).map (fun r => r.timestamp)
            = db.rows.map (fun r => r.timestamp) ++ [x.2.2] := by
          simp [hnew]
        rw [this, List.append_assoc, List.singleton_append]
        simpa using hts
      have hlen1 : ((db.rows ++ [newRow]).drop j).length ≤ m * 2 := by
        rw [List.length_drop, List.length_append, List.length_singleton]
        omega
      have hihjj := ih ⟨(db.rows ++ [newRow]).drop j, db.next_id + 1⟩
        huser1 hid1 hidlt1 hts1 hlen1
      simp only at hihjj
      rw [hihjj]
      rw [show rowsFrom user_id db.next_id (x :: xs)
          = newRow :: rowsFrom user_id (db.next_id + 1) xs from rfl]
      rw [show db.rows ++ newRow :: rowsFrom user_id (db.next_id + 1) xs
          = (db.rows ++ [newRow]) ++ rowsFrom user_id (db.next_id + 1) xs
        by rw [List.append_assoc, List.singleton_append]]
      have hsplitdrop : ((db.rows ++ [newRow])
              ++ rowsFrom user_id (db.next_id + 1) xs).drop j
          = (db.rows ++ [newRow]).drop j
              ++ rowsFrom user_id (db.next_id + 1) xs := by
        rw [List.drop_append_eq_append_drop,
          show j - (db.rows ++ [newRow]).length = 0 by omega,
          List.drop_zero]
      rw [← hsplitdrop, List.drop_drop]
      congr 1
      rw [List.length_drop, List.length_append, List.length_singleton]
      simp only [List.length_cons]
      omega

/-- C4 : (a) after every `add_message` call — from any prior table
state — the appended user's log holds at most
`max_messages_per_user * 2` rows; (b) appending
`max_messages_per_user * 2 + 5` messages for one user with strictly
increasing timestamps, starting from an empty table, leaves exactly
`max_messages_per_user * 2` rows and they are the most recent ones by
timestamp (the final 5-dropped suffix of the appended sequence). -/
theorem c4_prune_bound_and_recent (m : Nat) :
    (∀ (db : HistoryDB) (user_id role content : String) (now : Int),
        countUser (add_message m user_id role content now db) user_id
          ≤ m * 2)
    ∧ (∀ (user_id : String) (msgs : List (String × String × Int)),
        msgs.length = m * 2 + 5 →
        List.Pairwise (fun a b => a.2.2 < b.2.2) msgs →
        (appendMany m user_id msgs HistoryDB.empty).rows.map
            (fun r => (r.role, r.content, r.timestamp)) = msgs.drop 5
        ∧ (appendMany m user_id msgs HistoryDB.empty).rows.length
            = m * 2) := by
  constructor
  · intro db user_id role content now
    exact pruneHistory_bound m user_id _
  · intro user_id msgs hcount hinc
    have hrows := appendMany_rows m user_id msgs HistoryDB.empty
      (by intro r hr; cases hr)
      List.Pairwise.nil
      (by intro r hr; cases hr)
      (by simpa [HistoryDB.empty, List.pairwise_map] using hinc)
      (by simp [HistoryDB.empty])
    simp only [HistoryDB.empty, List.nil_append, List.length_nil,
      Nat.zero_add] at hrows ⊢
    rw [hrows, hcount]
    rw [show m * 2 + 5 - m * 2 = 5 by omega]
    constructor
    · rw [List.map_drop, rowsFrom_proj]
    · rw [List.length_drop, rowsFrom_length, hcount]
      omega

/-- Closed instance for `c4_prune_bound_and_recent` with
`max_messages_per_user = 1`: seven appends keep the last two rows, and
a further append keeps the count at two. -/
theorem c4_prune_bound_and_recent_check :
    (appendMany 1 "u"
        [("user", "m1", 1), ("assistant", "m2", 2), ("user", "m3", 3),
          ("assistant", "m4", 4), ("user", "m5", 5),
          ("assistant", "m6", 6), ("user", "m7", 7)]
        HistoryDB.empty).rows.map
        (fun r => (r.role, r.content, r.timestamp))
      = [("assistant", "m6", 6), ("user", "m7", 7)]
    ∧ countUser (add_message 1 "u" "user" "m8" 8
        (appendMany 1 "u"
          [("user", "m1", 1), ("assistant", "m2", 2), ("user", "m3", 3),
            ("assistant", "m4", 4), ("user", "m5", 5),
            ("assistant", "m6", 6), ("user", "m7", 7)]
          HistoryDB.empty)) "u" ≤ 1 * 2 := by
  constructor
  · exact ((c4_prune_bound_and_recent 1).2 "u"
      [("user", "m1", 1), ("assistant", "m2", 2), ("user", "m3", 3),
        ("assistant", "m4", 4), ("user", "m5", 5),
        ("assistant", "m6", 6), ("user", "m7", 7)]
      (by decide) (by decide)).1
  · exact (c4_prune_bound_and_recent 1).1 _ "u" "user" "m8" 8

end Meshai
